import Mathlib

/-!
Shallow embedding of the gym-music reward-shaping environment
(`src/music/music_env.py` and `src/music/music_theory_env.py`).

Event codes are natural numbers, compositions are lists of event codes,
and scalar rewards are rationals (Python floats carry only exact small
decimals here). The constants below come from the `util` module, which is
imported by both source files but absent from the repository snapshot, so
they are modelled from the spec (section 3 and section 6) and from the note
sets `[2, 14, 26]`, `[9, 21, 33]`, `[6, 18, 30]` hard-coded in
`detect_sequential_interval`.
-/

set_option autoImplicit false

/-- Modelled from the spec: the rest ("note off") event code, a distinguished
subvalue of the event-code alphabet defined in the missing `util` module. -/
def NOTE_OFF : ℕ := 0

/-- Modelled from the spec: the hold ("no event", continue previous note)
event code, a distinguished subvalue defined in the missing `util` module. -/
def NO_EVENT : ℕ := 1

/-- Modelled from the spec: the default bar length (8 beats), constant
`BEATS_PER_BAR` of the missing `util` module. -/
def BEATS_PER_BAR : ℕ := 8

/-- Modelled from the spec: the default key, C-major pitch classes across
three octaves, constant `C_MAJOR_KEY` of the missing `util` module; pitch
indices follow the C-class notes `[2, 14, 26]` hard-coded in
`detect_sequential_interval`, and the two special codes count as in key. -/
def C_MAJOR_KEY : List ℕ :=
  [0, 1, 2, 4, 6, 7, 9, 11, 13, 14, 16, 18, 19, 21, 23, 25, 26, 28, 30, 31, 33, 35, 37]

/-- Modelled from the spec: the tonic pitch class, constant `C_MAJOR_TONIC`
of the missing `util` module (the middle C-class pitch, consistent with the
tonic note set `[2, 14, 26]` hard-coded in `detect_sequential_interval`). -/
def C_MAJOR_TONIC : ℕ := 14

/-- Embeds `MusicTheoryEnv.detect_last_motif`
(src/music/music_theory_env.py lines 146-169). `composition[-bar_length:]`
is `drop (length - bar_length)` for the positive bar lengths the spec
allows. `len(set(actual_notes))` is the card of the filtered list's finset. -/
def detect_last_motif (composition : List ℕ) (bar_length : ℕ) :
    Option (List ℕ) × ℕ :=
  if composition.length < bar_length then (none, 0)
  else
    let last_bar := composition.drop (composition.length - bar_length)
    let actual_notes := last_bar.filter fun a => a != NO_EVENT && a != NOTE_OFF
    let num_unique_notes := actual_notes.toFinset.card
    if num_unique_notes ≥ 3 then (some last_bar, num_unique_notes)
    else (none, num_unique_notes)

/-- Embeds the nested search loop of `detect_repeated_motif`
(src/music/music_theory_env.py lines 220-226): the outer loop tries every
start index `i` of `range(len(prev) - len(motif) + 1)`, the inner `for`/
`else` compares the `len(motif)` elements of `prev_composition` starting at
`i` with `motif` elementwise. Python's `range` of a nonpositive bound is
empty; the truncated-subtraction range below then still tries `i = 0`, where
the comparison fails for the nonempty motifs this is called with. -/
def motif_search (prev_composition motif : List ℕ) : Bool :=
  (List.range (prev_composition.length - motif.length + 1)).any fun i =>
    (prev_composition.drop i).take motif.length == motif

/-- Embeds `MusicTheoryEnv.detect_repeated_motif`
(src/music/music_theory_env.py lines 198-226).
`composition[:-(bar_length - 1) - 1]` is `composition[:-bar_length]`, i.e.
`take (length - bar_length)`, for the positive bar lengths the spec allows. -/
def detect_repeated_motif (composition : List ℕ) (bar_length : ℕ) :
    Bool × Option (List ℕ) :=
  if composition.length < bar_length then (false, none)
  else
    match (detect_last_motif composition bar_length).1 with
    | none => (false, none)
    | some motif =>
      let prev_composition := composition.take (composition.length - bar_length)
      if motif_search prev_composition motif then (true, some motif)
      else (false, none)

/-- Embeds the backward scan of `detect_repeating_notes`
(src/music/music_theory_env.py lines 69-82): the Python loop walks indices
`len(composition) - 2 .. 0`, i.e. the composition without its final element
(the newly appended action), most recent first — here the reversed
`dropLast`. It counts consecutive occurrences of `action`, records
interleaved rests and holds, and stops at the first other element
(the `break`, which discards everything older). -/
def scan_repeats (action : ℕ) : List ℕ → ℕ × Bool × Bool
  | [] => (0, false, false)
  | x :: rest =>
    if x = action then
      let r := scan_repeats action rest
      (r.1 + 1, r.2.1, r.2.2)
    else if x = NOTE_OFF then
      let r := scan_repeats action rest
      (r.1, r.2.1, true)
    else if x = NO_EVENT then
      let r := scan_repeats action rest
      (r.1, true, r.2.2)
    else (0, false, false)

/-- Embeds `MusicTheoryEnv.detect_repeating_notes`
(src/music/music_theory_env.py lines 61-96), including the final `else`
branch with the `> 8` threshold. Each Python `if cond: return True` that
falls through reaches the trailing `return False`. -/
def detect_repeating_notes (composition : List ℕ) (action : ℕ) : Bool :=
  let r := scan_repeats action composition.dropLast.reverse
  let num_repeated := r.1
  let contains_held_notes := r.2.1
  let contains_breaks := r.2.2
  if action = NOTE_OFF ∧ 1 < num_repeated then true
  else if contains_held_notes = false ∧ contains_breaks = false then
    if 4 < num_repeated then true else false
  else if contains_held_notes = true ∨ contains_breaks = true then
    if 6 < num_repeated then true else false
  else
    if 8 < num_repeated then true else false

/-- Version of `detect_repeating_notes` with the final `else` branch (the
`> 8` threshold) removed, following the claim's words, for comparison with
the embedding of the source. -/
def detect_repeating_notes_no_dead_branch
    (composition : List ℕ) (action : ℕ) : Bool :=
  let r := scan_repeats action composition.dropLast.reverse
  let num_repeated := r.1
  let contains_held_notes := r.2.1
  let contains_breaks := r.2.2
  if action = NOTE_OFF ∧ 1 < num_repeated then true
  else if contains_held_notes = false ∧ contains_breaks = false then
    if 4 < num_repeated then true else false
  else if contains_held_notes = true ∨ contains_breaks = true then
    if 6 < num_repeated then true else false
  else false

/-- Embeds `MusicTheoryEnv.reward_key`
(src/music/music_theory_env.py lines 32-44). -/
def reward_key (action : ℕ) (penalty_amount : ℚ) (key : List ℕ) : ℚ :=
  if action ∉ key then penalty_amount else 0

/-- Embeds `MusicTheoryEnv.reward_non_repeating`
(src/music/music_theory_env.py lines 46-59). -/
def reward_non_repeating (composition : List ℕ) (action : ℕ) : ℚ :=
  if detect_repeating_notes composition action = false then 0.1 else 0

/-- Embeds `MusicTheoryEnv.reward_tonic`
(src/music/music_theory_env.py lines 98-122). `self.num_notes` is set
nowhere in the source files; modelled from the spec: `totalNotes` is the
configured composition length. The beat arithmetic is over ℤ as in Python,
where `num_notes - 4` may be negative for tiny configurations. -/
def reward_tonic (num_notes beat action tonic_note : ℕ)
    (reward_amount : ℚ) : ℚ :=
  let first_note_of_final_bar : ℤ := (num_notes : ℤ) - 4
  if (beat : ℤ) = 0 ∨ (beat : ℤ) = first_note_of_final_bar then
    if action = tonic_note then reward_amount else 0
  else if (beat : ℤ) = first_note_of_final_bar + 1 then
    if action = NO_EVENT then reward_amount else 0
  else if first_note_of_final_bar + 1 < (beat : ℤ) then
    if action = NO_EVENT ∨ action = NOTE_OFF then reward_amount else 0
  else 0

/-- Embeds `MusicTheoryEnv.reward_motif`
(src/music/music_theory_env.py lines 124-144); `detect_last_motif` is
called with its default bar length. -/
def reward_motif (composition : List ℕ) (reward_amount : ℚ) : ℚ :=
  let r := detect_last_motif composition BEATS_PER_BAR
  match r.1 with
  | some _ =>
    let motif_complexity_bonus := max (((r.2 : ℚ) - 3) * 0.3) 0
    reward_amount + motif_complexity_bonus
  | none => 0

/-- Embeds `MusicTheoryEnv.reward_repeated_motif`
(src/music/music_theory_env.py lines 171-196). The source reads `motif`
only when `is_repeated` is true, and `detect_repeated_motif` then always
supplies one; the wildcard arm covers the unreachable `(true, none)`
shape. -/
def reward_repeated_motif (composition : List ℕ) (bar_length : ℕ)
    (reward_amount : ℚ) : ℚ :=
  match detect_repeated_motif composition bar_length with
  | (true, some motif) =>
    let actual_notes := motif.filter fun a => a != NO_EVENT && a != NOTE_OFF
    let num_notes_in_motif := actual_notes.toFinset.card
    let motif_complexity_bonus := max ((num_notes_in_motif : ℚ) - 3) 0
    reward_amount + motif_complexity_bonus
  | _ => 0

/-- Version of `reward_tonic` with the beat-0 test removed from its first
branch, following claim C10's words, for comparison with the embedding of
the source inside the step loop. -/
def reward_tonic_without_beat0 (num_notes beat action tonic_note : ℕ)
    (reward_amount : ℚ) : ℚ :=
  let first_note_of_final_bar : ℤ := (num_notes : ℤ) - 4
  if (beat : ℤ) = first_note_of_final_bar then
    if action = tonic_note then reward_amount else 0
  else if (beat : ℤ) = first_note_of_final_bar + 1 then
    if action = NO_EVENT then reward_amount else 0
  else if first_note_of_final_bar + 1 < (beat : ℤ) then
    if action = NO_EVENT ∨ action = NOTE_OFF then reward_amount else 0
  else 0

/-- Modelled from the spec: the closed enumeration of interval categories
(spec section 3, `IntervalCategory`). The numeric constants of the missing
`rl_tuner_ops` module are represented by distinct constructors — the source
itself keeps them apart, giving each its own reward in
`reward_preferred_intervals` — with the raw semitone distance carried by
`numeric`; `noInterval` is the plain `0` the source returns when no sounded
note precedes the action. -/
inductive IntervalCategory where
  | noInterval
  | hold
  | holdAfterStrong
  | rest
  | restAfterStrong
  | inKeyFifth
  | inKeyThird
  | numeric (interval : ℕ)
deriving DecidableEq

/-- Modelled from the spec: a perfect fifth in semitones, constant `FIFTH`
of the missing `rl_tuner_ops` module. -/
def FIFTH : ℕ := 7

/-- Modelled from the spec: a major third in semitones, constant `THIRD`
of the missing `rl_tuner_ops` module. -/
def THIRD : ℕ := 4

/-- Embeds the backward scan of `detect_sequential_interval`
(src/music/music_theory_env.py lines 252-257): starting from
`composition[-2]`, skip hold and rest codes toward the front; when every
element is a hold or rest the scan ends on `composition[0]`, still a
hold or rest. The argument is the composition without its final element
(the action), most recent first; the nil case is unreachable because the
caller requires at least two elements. -/
def scan_prev_note : List ℕ → ℕ
  | [] => NO_EVENT
  | [x] => x
  | x :: rest =>
    if x = NO_EVENT ∨ x = NOTE_OFF then scan_prev_note rest else x

/-- Embeds `MusicTheoryEnv.detect_sequential_interval`
(src/music/music_theory_env.py lines 228-287) on the default `key=None`
(C-major) path, with the note sets hard-coded in the source. Reading
`composition[-2]` on a composition of fewer than two elements raises
`IndexError` in Python, embedded as `none`; logging calls are omitted. -/
def detect_sequential_interval (composition : List ℕ) (action : ℕ) :
    Option (IntervalCategory × ℕ × ℕ) :=
  if composition.length < 2 then none
  else
    let tonic_notes : List ℕ := [2, 14, 26]
    let fifth_notes : List ℕ := [9, 21, 33]
    let c_notes : List ℕ := [2, 14, 26]
    let g_notes : List ℕ := [9, 21, 33]
    let e_notes : List ℕ := [6, 18, 30]
    let prev_note := scan_prev_note composition.dropLast.reverse
    if prev_note = NOTE_OFF ∨ prev_note = NO_EVENT then
      some (IntervalCategory.noInterval, action, prev_note)
    else if action = NO_EVENT then
      if prev_note ∈ tonic_notes ∨ prev_note ∈ fifth_notes then
        some (IntervalCategory.holdAfterStrong, action, prev_note)
      else
        some (IntervalCategory.hold, action, prev_note)
    else if action = NOTE_OFF then
      if prev_note ∈ tonic_notes ∨ prev_note ∈ fifth_notes then
        some (IntervalCategory.restAfterStrong, action, prev_note)
      else
        some (IntervalCategory.rest, action, prev_note)
    else
      let interval := ((action : ℤ) - (prev_note : ℤ)).natAbs
      if interval = FIFTH ∧ (prev_note ∈ c_notes ∨ prev_note ∈ g_notes) then
        some (IntervalCategory.inKeyFifth, action, prev_note)
      else if interval = THIRD ∧ (prev_note ∈ c_notes ∨ prev_note ∈ e_notes) then
        some (IntervalCategory.inKeyThird, action, prev_note)
      else
        some (IntervalCategory.numeric interval, action, prev_note)

/-- State of the environment (src/music/music_env.py): the composition
buffer and beat counter set by `_reset`, and the composition length set to
64 by `__init__` (configurable per the spec, section 6). -/
structure MusicEnvState where
  composition : List ℕ
  beat : ℕ
  composition_length : ℕ
deriving DecidableEq

/-- Embeds `MusicEnv._reset` (src/music/music_env.py lines 25-31): clears
the composition and the beat. The returned random start note does not
touch the state and is not modelled. -/
def MusicEnv_reset (s : MusicEnvState) : MusicEnvState :=
  ⟨[], 0, s.composition_length⟩

/-- Embeds `MusicEnv._step` (src/music/music_env.py lines 16-23): appends
the action, increments the beat, and returns the action as observation,
reward 0, and done exactly when the incremented beat equals the configured
composition length. -/
def MusicEnv_step (s : MusicEnvState) (action : ℕ) :
    MusicEnvState × ℕ × ℚ × Bool :=
  (⟨s.composition ++ [action], s.beat + 1, s.composition_length⟩, action, 0,
    decide (s.beat + 1 = s.composition_length))

/-- Embeds `MusicTheoryEnv._step` (src/music/music_theory_env.py lines
13-30): the base step mutates the buffer and beat first, then the five
reward components are added in source order, each reading the post-append
state, with the sources' default arguments. `self.num_notes` in
`reward_tonic` is modelled from the spec as the configured composition
length. The commented-out end-of-composition termination in the source is
dead and not modelled. -/
def MusicTheoryEnv_step (s : MusicEnvState) (action : ℕ) :
    MusicEnvState × ℕ × ℚ × Bool :=
  match MusicEnv_step s action with
  | (s1, state, reward0, done) =>
    let reward1 := reward0 +
      reward_tonic s1.composition_length s1.beat action C_MAJOR_TONIC 3
    let reward2 := reward1 + reward_key action (-1) C_MAJOR_KEY
    let reward3 := reward2 + reward_non_repeating s1.composition action
    let reward4 := reward3 + reward_motif s1.composition 3
    let reward5 := reward4 +
      reward_repeated_motif s1.composition BEATS_PER_BAR 4
    (s1, state, reward5, done)

/-- Runs the step loop: folds `MusicTheoryEnv_step` over a list of
actions, keeping the environment state. -/
def run_env (s : MusicEnvState) (actions : List ℕ) : MusicEnvState :=
  actions.foldl (fun t a => (MusicTheoryEnv_step t a).1) s

/-- Length of the trailing window extracted by `detect_last_motif`. -/
theorem last_bar_length (composition : List ℕ) (bar_length : ℕ)
    (h : bar_length ≤ composition.length) :
    (composition.drop (composition.length - bar_length)).length = bar_length := by
  rw [List.length_drop]
  omega

/-- Characterisation of the nested search loop: it reports `true` exactly
when the motif occurs contiguously somewhere in the prior composition. -/
theorem motif_search_spec (prev_composition motif : List ℕ) (hm : motif ≠ []) :
    motif_search prev_composition motif = true ↔
      ∃ i, i + motif.length ≤ prev_composition.length ∧
        (prev_composition.drop i).take motif.length = motif := by
  unfold motif_search
  rw [List.any_eq_true]
  have hml : 0 < motif.length := List.length_pos.mpr hm
  constructor
  · rintro ⟨i, _hi, hbeq⟩
    rw [beq_iff_eq] at hbeq
    refine ⟨i, ?_, hbeq⟩
    have hlen := congrArg List.length hbeq
    simp only [List.length_take, List.length_drop] at hlen
    omega
  · rintro ⟨i, hle, heq⟩
    refine ⟨i, ?_, by rw [beq_iff_eq]; exact heq⟩
    rw [List.mem_range]
    omega

/-- When `detect_last_motif` reports a motif, the motif is the trailing
`bar_length` window and the composition is at least a bar long. -/
theorem detect_last_motif_some (composition : List ℕ) (bar_length : ℕ)
    (m : List ℕ) (h : (detect_last_motif composition bar_length).1 = some m) :
    m = composition.drop (composition.length - bar_length) ∧
      bar_length ≤ composition.length := by
  unfold detect_last_motif at h
  by_cases hlt : composition.length < bar_length
  · simp [hlt] at h
  · simp only [if_neg hlt] at h
    refine ⟨?_, not_lt.mp hlt⟩
    by_cases h3 : ((composition.drop (composition.length - bar_length)).filter
        fun a => a != NO_EVENT && a != NOTE_OFF).toFinset.card ≥ 3
    · simp only [if_pos h3] at h
      exact (Option.some_inj.mp h).symm
    · simp only [if_neg h3] at h
      exact absurd h (by simp)

/-- C2: for every composition and positive bar length, `detect_last_motif`
returns `(none, 0)` when the composition is shorter than the bar length;
otherwise, letting `w` be the trailing window of exactly `bar_length`
elements and `d` the number of distinct codes of `w` after removing
`NO_EVENT` and `NOTE_OFF`, it returns `(some w, d)` when `3 ≤ d` and
`(none, d)` when `d < 3` (the composition is not modified: the embedding is
a pure function of it). -/
theorem detect_last_motif_spec (composition : List ℕ) (bar_length : ℕ)
    (_hbl : 1 ≤ bar_length) :
    (composition.length < bar_length →
      detect_last_motif composition bar_length = (none, 0)) ∧
    (bar_length ≤ composition.length →
      (composition.drop (composition.length - bar_length)).length = bar_length ∧
      (3 ≤ ((composition.drop (composition.length - bar_length)).filter
          fun a => a != NO_EVENT && a != NOTE_OFF).dedup.length →
        detect_last_motif composition bar_length =
          (some (composition.drop (composition.length - bar_length)),
            ((composition.drop (composition.length - bar_length)).filter
              fun a => a != NO_EVENT && a != NOTE_OFF).dedup.length)) ∧
      (((composition.drop (composition.length - bar_length)).filter
          fun a => a != NO_EVENT && a != NOTE_OFF).dedup.length < 3 →
        detect_last_motif composition bar_length =
          (none, ((composition.drop (composition.length - bar_length)).filter
            fun a => a != NO_EVENT && a != NOTE_OFF).dedup.length))) := by
  constructor
  · intro h
    simp [detect_last_motif, h]
  · intro h
    have hlt : ¬ composition.length < bar_length := not_lt.mpr h
    refine ⟨last_bar_length composition bar_length h, ?_, ?_⟩
    · intro h3
      simp only [detect_last_motif, if_neg hlt, List.card_toFinset, ge_iff_le,
        if_pos h3]
    · intro h3
      have h3n : ¬ 3 ≤ ((composition.drop (composition.length - bar_length)).filter
          fun a => a != NO_EVENT && a != NOTE_OFF).dedup.length := not_le.mpr h3
      simp only [detect_last_motif, if_neg hlt, List.card_toFinset, ge_iff_le,
        if_neg h3n]

/-- Witness for C2: a bar with four distinct sounded notes yields that bar
and count 4; a two-element composition is shorter than a bar and yields
`(none, 0)`. -/
theorem detect_last_motif_spec_witness :
    detect_last_motif [2, 4, 6, 2, 1, 0, 4, 9] 8 =
      (some [2, 4, 6, 2, 1, 0, 4, 9], 4) ∧
    detect_last_motif [2, 2] 8 = (none, 0) := by
  constructor
  · exact ((detect_last_motif_spec [2, 4, 6, 2, 1, 0, 4, 9] 8 (by decide)).2
      (by decide)).2.1 (by decide)
  · exact (detect_last_motif_spec [2, 2] 8 (by decide)).1 (by decide)

/-- C1: for every composition and positive bar length,
`detect_repeated_motif` returns `(false, none)` when the composition is
shorter than the bar length or when `detect_last_motif` finds no motif;
otherwise it searches the prior segment (the composition with its final
`bar_length` elements excluded) for an exact contiguous occurrence of the
trailing `bar_length` window, returning `(true, that window)` exactly when
such an occurrence exists and `(false, none)` otherwise. -/
theorem detect_repeated_motif_spec (composition : List ℕ) (bar_length : ℕ)
    (hbl : 1 ≤ bar_length) :
    ((composition.length < bar_length ∨
        (detect_last_motif composition bar_length).1 = none) →
      detect_repeated_motif composition bar_length = (false, none)) ∧
    (∀ m, (detect_last_motif composition bar_length).1 = some m →
      ((∃ i, i + bar_length ≤ composition.length - bar_length ∧
          ((composition.take (composition.length - bar_length)).drop i).take
            bar_length = composition.drop (composition.length - bar_length)) →
        detect_repeated_motif composition bar_length =
          (true, some (composition.drop (composition.length - bar_length)))) ∧
      (¬ (∃ i, i + bar_length ≤ composition.length - bar_length ∧
          ((composition.take (composition.length - bar_length)).drop i).take
            bar_length = composition.drop (composition.length - bar_length)) →
        detect_repeated_motif composition bar_length = (false, none))) := by
  constructor
  · rintro (hlt | hnone)
    · simp [detect_repeated_motif, hlt]
    · unfold detect_repeated_motif
      by_cases hlt : composition.length < bar_length
      · simp [hlt]
      · simp only [if_neg hlt, hnone]
  · intro m hm
    obtain ⟨hmw, hble⟩ := detect_last_motif_some composition bar_length m hm
    have hlt : ¬ composition.length < bar_length := not_lt.mpr hble
    have hmlen : m.length = bar_length := by
      rw [hmw]; exact last_bar_length composition bar_length hble
    have hm_ne : m ≠ [] := by
      intro h0
      rw [h0] at hmlen
      simp at hmlen
      omega
    have hprior : (composition.take (composition.length - bar_length)).length =
        composition.length - bar_length := by
      rw [List.length_take]
      omega
    constructor
    · rintro ⟨i, hle, heq⟩
      have hsearch : motif_search
          (composition.take (composition.length - bar_length)) m = true := by
        rw [motif_search_spec _ _ hm_ne]
        exact ⟨i, by rw [hprior, hmlen]; exact hle,
          by rw [hmlen, hmw]; exact heq⟩
      rw [← hmw]
      simp only [detect_repeated_motif, if_neg hlt, hm, hsearch, if_pos]
    · intro hno
      have hsearch : motif_search
          (composition.take (composition.length - bar_length)) m = false := by
        rw [Bool.eq_false_iff]
        intro htrue
        rw [motif_search_spec _ _ hm_ne] at htrue
        obtain ⟨i, hle, heq⟩ := htrue
        exact hno ⟨i, by rw [hprior, hmlen] at hle; exact hle,
          by rw [hmlen, hmw] at heq; exact heq⟩
      simp only [detect_repeated_motif, if_neg hlt, hm, hsearch]
      simp

/-- Witness for C1: a composition made of the same eight-note bar twice has
its trailing bar occurring in the prior segment, so the repeat is reported;
a composition shorter than a bar reports `(false, none)`. -/
theorem detect_repeated_motif_spec_witness :
    detect_repeated_motif
        [2, 4, 6, 7, 9, 11, 13, 14, 2, 4, 6, 7, 9, 11, 13, 14] 8 =
      (true, some [2, 4, 6, 7, 9, 11, 13, 14]) ∧
    detect_repeated_motif [2, 2] 8 = (false, none) := by
  constructor
  · exact ((detect_repeated_motif_spec
      [2, 4, 6, 7, 9, 11, 13, 14, 2, 4, 6, 7, 9, 11, 13, 14] 8 (by decide)).2
      [2, 4, 6, 7, 9, 11, 13, 14] (by decide)).1 ⟨0, by decide, by decide⟩
  · exact (detect_repeated_motif_spec [2, 2] 8 (by decide)).1
      (Or.inl (by decide))

/-- C9: the final branch of `detect_repeating_notes` (excessive only above
8 repeats) is unreachable: for every composition and action the result is
unchanged if that branch is removed, because the two boolean interleaving
flags make the preceding two branches exhaustive. -/
theorem detect_repeating_notes_dead_branch (composition : List ℕ)
    (action : ℕ) :
    detect_repeating_notes composition action =
      detect_repeating_notes_no_dead_branch composition action := by
  simp only [detect_repeating_notes, detect_repeating_notes_no_dead_branch]
  rcases scan_repeats action composition.dropLast.reverse with ⟨n, h, b⟩
  cases h <;> cases b <;> simp

/-- Counterexample for C3: with composition `[5, 5, 5, 5, 5]` (the last
element being the newly appended action) and action `5`, the loop discounts
the action, counts only 4 repeats, and the threshold is strictly more than
4, so `detect_repeating_notes` returns `false` — not `true` as claimed. -/
theorem detect_repeating_notes_five_counterexample :
    detect_repeating_notes [5, 5, 5, 5, 5] 5 = false := by decide

/-- C3 amended: with composition `[5, 5, 5, 5, 5, 5]` (six consecutive
identical entries, hence five repeats once the appended action is
discounted) and action `5`, `detect_repeating_notes` returns `true`; with
five or fewer consecutive identical entries (no interleaved holds or rests)
it returns `false`. -/
theorem detect_repeating_notes_boundary :
    detect_repeating_notes [5, 5, 5, 5, 5, 5] 5 = true ∧
    detect_repeating_notes [5, 5, 5, 5, 5] 5 = false ∧
    detect_repeating_notes [5, 5, 5, 5] 5 = false := by decide

/-- C4: under the default configuration (`totalNotes` = the configured
composition length, 64), `reward_tonic` returns exactly 3 when the beat is
0 and the action is the tonic, 0 when the beat is 0 and the action is not
the tonic, 3 at beat 60 (= 64 − 4) for the tonic, 3 at beat 61 (= 64 − 3)
for a hold, 3 at every later beat for a hold or rest, and 0 in all other
cases. -/
theorem reward_tonic_spec (beat action : ℕ) :
    (beat = 0 → action = C_MAJOR_TONIC →
      reward_tonic 64 beat action C_MAJOR_TONIC 3 = 3) ∧
    (beat = 0 → action ≠ C_MAJOR_TONIC →
      reward_tonic 64 beat action C_MAJOR_TONIC 3 = 0) ∧
    (beat = 60 → action = C_MAJOR_TONIC →
      reward_tonic 64 beat action C_MAJOR_TONIC 3 = 3) ∧
    (beat = 61 → action = NO_EVENT →
      reward_tonic 64 beat action C_MAJOR_TONIC 3 = 3) ∧
    (61 < beat → action = NO_EVENT ∨ action = NOTE_OFF →
      reward_tonic 64 beat action C_MAJOR_TONIC 3 = 3) ∧
    (¬(beat = 0 ∧ action = C_MAJOR_TONIC) →
      ¬(beat = 60 ∧ action = C_MAJOR_TONIC) →
      ¬(beat = 61 ∧ action = NO_EVENT) →
      ¬(61 < beat ∧ (action = NO_EVENT ∨ action = NOTE_OFF)) →
      reward_tonic 64 beat action C_MAJOR_TONIC 3 = 0) := by
  refine ⟨?_, ?_, ?_, ?_, ?_, ?_⟩
  · rintro rfl rfl
    norm_num [reward_tonic]
  · rintro rfl hne
    norm_num [reward_tonic, hne]
  · rintro rfl rfl
    norm_num [reward_tonic]
  · rintro rfl rfl
    norm_num [reward_tonic]
  · intro hb ha
    simp only [reward_tonic]
    rw [if_neg (by omega), if_neg (by omega), if_pos (by omega),
      if_pos ha]
  · intro h1 h2 h3 h4
    simp only [reward_tonic]
    split_ifs <;> first | rfl | (exfalso; omega)

/-- Witness for C4: tonic at beat 0 earns 3, a rest at beat 0 earns 0, and
a rest at beat 62 earns 3. -/
theorem reward_tonic_spec_witness :
    reward_tonic 64 0 C_MAJOR_TONIC C_MAJOR_TONIC 3 = 3 ∧
    reward_tonic 64 0 NOTE_OFF C_MAJOR_TONIC 3 = 0 ∧
    reward_tonic 64 62 NOTE_OFF C_MAJOR_TONIC 3 = 3 :=
  ⟨(reward_tonic_spec 0 C_MAJOR_TONIC).1 rfl rfl,
    (reward_tonic_spec 0 NOTE_OFF).2.1 rfl (by decide),
    (reward_tonic_spec 62 NOTE_OFF).2.2.2.2.1 (by decide) (Or.inr rfl)⟩

/-- C6: evaluation at the failing input. On the composition holding only
the newly appended action, the source reads `composition[-2]` and raises
`IndexError` (embedded as `none`) instead of returning the designated
"no interval" category; with at least two elements and only holds or rests
before the action it does return that category, as the two further
conjuncts show. -/
theorem detect_sequential_interval_singleton :
    detect_sequential_interval [5] 5 = none ∧
    detect_sequential_interval [1, 5] 5 =
      some (IntervalCategory.noInterval, 5, 1) ∧
    detect_sequential_interval [0, 0, 1, 5] 5 =
      some (IntervalCategory.noInterval, 5, 0) := by decide

/-- Counterexample for C5: both 9 and 16 are sounded pitch codes, yet with
previous note 9 (a G-class pitch) and action 16 the absolute difference 7
is special-cased to the in-key-fifth category, while with the roles
swapped the previous note 16 is in neither strong-degree set and the raw
numeric fifth is returned — the categories differ. -/
theorem interval_asymmetry_counterexample :
    (detect_sequential_interval [9, 16] 16).map Prod.fst =
      some IntervalCategory.inKeyFifth ∧
    (detect_sequential_interval [16, 9] 9).map Prod.fst =
      some (IntervalCategory.numeric 7) := by decide

/-- Reduction of `detect_sequential_interval` on a two-element composition
whose first element is a sounded pitch and whose action (the final
element) is sounded as well: only the interval branches remain. -/
theorem detect_sequential_interval_pair (x y : ℕ)
    (hx_off : x ≠ NOTE_OFF) (hx_ev : x ≠ NO_EVENT)
    (hy_off : y ≠ NOTE_OFF) (hy_ev : y ≠ NO_EVENT) :
    detect_sequential_interval [x, y] y =
      (if ((y : ℤ) - (x : ℤ)).natAbs = FIFTH ∧
          (x ∈ ([2, 14, 26] : List ℕ) ∨ x ∈ ([9, 21, 33] : List ℕ)) then
        some (IntervalCategory.inKeyFifth, y, x)
      else if ((y : ℤ) - (x : ℤ)).natAbs = THIRD ∧
          (x ∈ ([2, 14, 26] : List ℕ) ∨ x ∈ ([6, 18, 30] : List ℕ)) then
        some (IntervalCategory.inKeyThird, y, x)
      else
        some (IntervalCategory.numeric (((y : ℤ) - (x : ℤ)).natAbs), y, x)) := by
  have hnx : ¬ (x = NOTE_OFF ∨ x = NO_EVENT) := by tauto
  show (if x = NOTE_OFF ∨ x = NO_EVENT then
      some (IntervalCategory.noInterval, y, x)
    else if y = NO_EVENT then
      (if x ∈ ([2, 14, 26] : List ℕ) ∨ x ∈ ([9, 21, 33] : List ℕ) then
        some (IntervalCategory.holdAfterStrong, y, x)
      else some (IntervalCategory.hold, y, x))
    else if y = NOTE_OFF then
      (if x ∈ ([2, 14, 26] : List ℕ) ∨ x ∈ ([9, 21, 33] : List ℕ) then
        some (IntervalCategory.restAfterStrong, y, x)
      else some (IntervalCategory.rest, y, x))
    else if ((y : ℤ) - (x : ℤ)).natAbs = FIFTH ∧
        (x ∈ ([2, 14, 26] : List ℕ) ∨ x ∈ ([9, 21, 33] : List ℕ)) then
      some (IntervalCategory.inKeyFifth, y, x)
    else if ((y : ℤ) - (x : ℤ)).natAbs = THIRD ∧
        (x ∈ ([2, 14, 26] : List ℕ) ∨ x ∈ ([6, 18, 30] : List ℕ)) then
      some (IntervalCategory.inKeyThird, y, x)
    else
      some (IntervalCategory.numeric (((y : ℤ) - (x : ℤ)).natAbs), y, x)) = _
  rw [if_neg hnx, if_neg hy_ev, if_neg hy_off]

/-- C5 amended: interval classification is symmetric in the two sounded
pitch codes provided the endpoints agree on strong-degree membership where
the special cases look at it: when the absolute difference is a perfect
fifth, both or neither pitches lie in the C/G note sets, and when it is a
major third, both or neither lie in the C/E note sets. Without this
proviso the counterexample applies. -/
theorem interval_symmetry (a b : ℕ)
    (ha_off : a ≠ NOTE_OFF) (ha_ev : a ≠ NO_EVENT)
    (hb_off : b ≠ NOTE_OFF) (hb_ev : b ≠ NO_EVENT)
    (h5 : ((a : ℤ) - (b : ℤ)).natAbs = FIFTH →
      (a ∈ ([2, 14, 26] : List ℕ) ∨ a ∈ ([9, 21, 33] : List ℕ) ↔
        b ∈ ([2, 14, 26] : List ℕ) ∨ b ∈ ([9, 21, 33] : List ℕ)))
    (h3 : ((a : ℤ) - (b : ℤ)).natAbs = THIRD →
      (a ∈ ([2, 14, 26] : List ℕ) ∨ a ∈ ([6, 18, 30] : List ℕ) ↔
        b ∈ ([2, 14, 26] : List ℕ) ∨ b ∈ ([6, 18, 30] : List ℕ))) :
    (detect_sequential_interval [a, b] b).map Prod.fst =
      (detect_sequential_interval [b, a] a).map Prod.fst := by
  have hswap : (((b : ℤ) - (a : ℤ)).natAbs) = (((a : ℤ) - (b : ℤ)).natAbs) := by
    omega
  rw [detect_sequential_interval_pair a b ha_off ha_ev hb_off hb_ev,
    detect_sequential_interval_pair b a hb_off hb_ev ha_off ha_ev, hswap]
  by_cases hF : (((a : ℤ) - (b : ℤ)).natAbs) = FIFTH
  · have h5i := h5 hF
    by_cases hmem : a ∈ ([2, 14, 26] : List ℕ) ∨ a ∈ ([9, 21, 33] : List ℕ)
    · have hpl : ((a : ℤ) - (b : ℤ)).natAbs = FIFTH ∧
          (a ∈ ([2, 14, 26] : List ℕ) ∨ a ∈ ([9, 21, 33] : List ℕ)) :=
        ⟨hF, hmem⟩
      have hpr : ((a : ℤ) - (b : ℤ)).natAbs = FIFTH ∧
          (b ∈ ([2, 14, 26] : List ℕ) ∨ b ∈ ([9, 21, 33] : List ℕ)) :=
        ⟨hF, h5i.mp hmem⟩
      simp only [if_pos hpl, if_pos hpr]
      rfl
    · have hnl : ¬ (((a : ℤ) - (b : ℤ)).natAbs = FIFTH ∧
          (a ∈ ([2, 14, 26] : List ℕ) ∨ a ∈ ([9, 21, 33] : List ℕ))) :=
        fun hc => hmem hc.2
      have hnr : ¬ (((a : ℤ) - (b : ℤ)).natAbs = FIFTH ∧
          (b ∈ ([2, 14, 26] : List ℕ) ∨ b ∈ ([9, 21, 33] : List ℕ))) :=
        fun hc => hmem (h5i.mpr hc.2)
      have ht3 : ¬ (((a : ℤ) - (b : ℤ)).natAbs = THIRD) := by
        rw [hF]; decide
      have hnl3 : ¬ (((a : ℤ) - (b : ℤ)).natAbs = THIRD ∧
          (a ∈ ([2, 14, 26] : List ℕ) ∨ a ∈ ([6, 18, 30] : List ℕ))) :=
        fun hc => ht3 hc.1
      have hnr3 : ¬ (((a : ℤ) - (b : ℤ)).natAbs = THIRD ∧
          (b ∈ ([2, 14, 26] : List ℕ) ∨ b ∈ ([6, 18, 30] : List ℕ))) :=
        fun hc => ht3 hc.1
      simp only [if_neg hnl, if_neg hnr, if_neg hnl3, if_neg hnr3]
      rfl
  · have hnl : ¬ (((a : ℤ) - (b : ℤ)).natAbs = FIFTH ∧
        (a ∈ ([2, 14, 26] : List ℕ) ∨ a ∈ ([9, 21, 33] : List ℕ))) :=
      fun hc => hF hc.1
    have hnr : ¬ (((a : ℤ) - (b : ℤ)).natAbs = FIFTH ∧
        (b ∈ ([2, 14, 26] : List ℕ) ∨ b ∈ ([9, 21, 33] : List ℕ))) :=
      fun hc => hF hc.1
    by_cases hT : (((a : ℤ) - (b : ℤ)).natAbs) = THIRD
    · have h3i := h3 hT
      by_cases hmem : a ∈ ([2, 14, 26] : List ℕ) ∨ a ∈ ([6, 18, 30] : List ℕ)
      · have hpl : ((a : ℤ) - (b : ℤ)).natAbs = THIRD ∧
            (a ∈ ([2, 14, 26] : List ℕ) ∨ a ∈ ([6, 18, 30] : List ℕ)) :=
          ⟨hT, hmem⟩
        have hpr : ((a : ℤ) - (b : ℤ)).natAbs = THIRD ∧
            (b ∈ ([2, 14, 26] : List ℕ) ∨ b ∈ ([6, 18, 30] : List ℕ)) :=
          ⟨hT, h3i.mp hmem⟩
        simp only [if_neg hnl, if_neg hnr, if_pos hpl, if_pos hpr]
        rfl
      · have hnl3 : ¬ (((a : ℤ) - (b : ℤ)).natAbs = THIRD ∧
            (a ∈ ([2, 14, 26] : List ℕ) ∨ a ∈ ([6, 18, 30] : List ℕ))) :=
          fun hc => hmem hc.2
        have hnr3 : ¬ (((a : ℤ) - (b : ℤ)).natAbs = THIRD ∧
            (b ∈ ([2, 14, 26] : List ℕ) ∨ b ∈ ([6, 18, 30] : List ℕ))) :=
          fun hc => hmem (h3i.mpr hc.2)
        simp only [if_neg hnl, if_neg hnr, if_neg hnl3, if_neg hnr3]
        rfl
    · have hnl3 : ¬ (((a : ℤ) - (b : ℤ)).natAbs = THIRD ∧
          (a ∈ ([2, 14, 26] : List ℕ) ∨ a ∈ ([6, 18, 30] : List ℕ))) :=
        fun hc => hT hc.1
      have hnr3 : ¬ (((a : ℤ) - (b : ℤ)).natAbs = THIRD ∧
          (b ∈ ([2, 14, 26] : List ℕ) ∨ b ∈ ([6, 18, 30] : List ℕ))) :=
        fun hc => hT hc.1
      simp only [if_neg hnl, if_neg hnr, if_neg hnl3, if_neg hnr3]
      rfl

/-- Witness for C5 amended at the spec's own example, C and G: both are in
the C/G note sets, so the fifth between them classifies the same in either
order. -/
theorem interval_symmetry_witness :
    (detect_sequential_interval [2, 9] 9).map Prod.fst =
      (detect_sequential_interval [9, 2] 2).map Prod.fst :=
  interval_symmetry 2 9 (by decide) (by decide) (by decide) (by decide)
    (by decide) (by decide)

/-- The state reached by the step loop: all actions appended in order, the
beat advanced once per action, the configured length untouched. -/
theorem run_env_state (actions : List ℕ) :
    ∀ s : MusicEnvState, run_env s actions =
      ⟨s.composition ++ actions, s.beat + actions.length,
        s.composition_length⟩ := by
  induction actions with
  | nil =>
    intro s
    simp [run_env]
  | cons a rest ih =>
    intro s
    have hstep : run_env s (a :: rest) =
        run_env ⟨s.composition ++ [a], s.beat + 1, s.composition_length⟩
          rest := rfl
    rw [hstep, ih]
    simp [List.append_assoc]
    omega

/-- C7: starting from a reset environment, the done flag returned by each
step is true exactly when the beat counter, after its increment for that
step, equals the configured composition length (64 in the default
configuration), and false on every earlier step; the step function reports
no other terminal condition. -/
theorem step_done_iff (s0 : MusicEnvState) (actions : List ℕ) (a : ℕ) :
    (MusicTheoryEnv_step (run_env (MusicEnv_reset s0) actions) a).2.2.2 =
        true ↔
      actions.length + 1 = s0.composition_length := by
  have hdone : ∀ (s : MusicEnvState) (x : ℕ),
      (MusicTheoryEnv_step s x).2.2.2 =
        decide (s.beat + 1 = s.composition_length) := fun s x => rfl
  rw [hdone, run_env_state]
  simp [MusicEnv_reset]

/-- C8: the scalar reward returned by each step equals exactly the sum of
the five reward components evaluated on the post-append state;
`reward_preferred_intervals` contributes nothing to the sum. -/
theorem step_reward_sum (s : MusicEnvState) (a : ℕ) :
    (MusicTheoryEnv_step s a).2.2.1 =
      reward_key a (-1) C_MAJOR_KEY
        + reward_non_repeating (s.composition ++ [a]) a
        + reward_tonic s.composition_length (s.beat + 1) a C_MAJOR_TONIC 3
        + reward_motif (s.composition ++ [a]) 3
        + reward_repeated_motif (s.composition ++ [a]) BEATS_PER_BAR 4 := by
  have h : (MusicTheoryEnv_step s a).2.2.1 =
      0 + reward_tonic s.composition_length (s.beat + 1) a C_MAJOR_TONIC 3
        + reward_key a (-1) C_MAJOR_KEY
        + reward_non_repeating (s.composition ++ [a]) a
        + reward_motif (s.composition ++ [a]) 3
        + reward_repeated_motif (s.composition ++ [a]) BEATS_PER_BAR 4 := rfl
  rw [h]
  ring

/-- For positive beats the beat-0 test of `reward_tonic` never decides a
branch: the pruned version agrees. -/
theorem reward_tonic_pos_beat (num_notes beat action tonic_note : ℕ)
    (reward_amount : ℚ) (h : 1 ≤ beat) :
    reward_tonic num_notes beat action tonic_note reward_amount =
      reward_tonic_without_beat0 num_notes beat action tonic_note
        reward_amount := by
  simp only [reward_tonic, reward_tonic_without_beat0]
  by_cases h1 : (beat : ℤ) = (num_notes : ℤ) - 4
  · rw [if_pos (Or.inr h1), if_pos h1]
  · have hno : ¬ ((beat : ℤ) = 0 ∨ (beat : ℤ) = (num_notes : ℤ) - 4) := by
      omega
    rw [if_neg hno, if_neg h1]

/-- C10: the invariant beat = length of composition holds after reset
(both zero) and is preserved by every step — each step appends exactly one
element and increments the beat by one before rewards are computed — so
every reward computation during a step observes beat = length ≥ 1, and in
particular the tonic reward computed by the step loop coincides with the
one whose beat-0 case is removed: that case is never exercised. -/
theorem beat_composition_invariant (s0 : MusicEnvState) (actions : List ℕ)
    (a : ℕ) :
    (run_env (MusicEnv_reset s0) actions).beat =
        (run_env (MusicEnv_reset s0) actions).composition.length ∧
    (MusicTheoryEnv_step (run_env (MusicEnv_reset s0) actions) a).1.composition
        = (run_env (MusicEnv_reset s0) actions).composition ++ [a] ∧
    (MusicTheoryEnv_step (run_env (MusicEnv_reset s0) actions) a).1.beat =
        (run_env (MusicEnv_reset s0) actions).beat + 1 ∧
    (MusicTheoryEnv_step (run_env (MusicEnv_reset s0) actions) a).1.beat =
        (MusicTheoryEnv_step
          (run_env (MusicEnv_reset s0) actions) a).1.composition.length ∧
    1 ≤ (MusicTheoryEnv_step (run_env (MusicEnv_reset s0) actions) a).1.beat ∧
    reward_tonic
        (MusicTheoryEnv_step
          (run_env (MusicEnv_reset s0) actions) a).1.composition_length
        (MusicTheoryEnv_step (run_env (MusicEnv_reset s0) actions) a).1.beat
        a C_MAJOR_TONIC 3 =
      reward_tonic_without_beat0
        (MusicTheoryEnv_step
          (run_env (MusicEnv_reset s0) actions) a).1.composition_length
        (MusicTheoryEnv_step (run_env (MusicEnv_reset s0) actions) a).1.beat
        a C_MAJOR_TONIC 3 := by
  have hfst : ∀ (s : MusicEnvState) (x : ℕ),
      (MusicTheoryEnv_step s x).1 =
        ⟨s.composition ++ [x], s.beat + 1, s.composition_length⟩ :=
    fun s x => rfl
  rw [run_env_state]
  refine ⟨by simp [MusicEnv_reset], rfl, rfl,
    by simp [hfst, MusicEnv_reset], ?_, ?_⟩
  · rw [hfst]
    exact Nat.le_add_left 1 _
  · apply reward_tonic_pos_beat
    rw [hfst]
    exact Nat.le_add_left 1 _
